import Mathlib

/-!
Verification development for the manifestly core (src/manifestly/core.py and
src/manifestly/settings.py), a library that generates, loads, compares and
syncs file manifests.

Shallow embedding conventions:
  * Python strings are modelled as `Str := List Char`; a Python dict mapping
    strings to strings is `Smap := List (Str × Str)` in insertion order, with
    dict assignment modelled by `dictInsert` (update in place, else append).
  * The filesystem reached through fsspec is modelled by `FS`: a list of
    (absolute path, content) files plus a list of directories.  `FS.find`
    mirrors fs.find (all files below a directory; instances list files in the
    sorted order fsspec.find returns).  Every path in `FS.files` is a file,
    so the `fs.isfile` re-check in Manifest.generate is always true here.
  * hashlib is an external collaborator: hashing is a parameter
    `hash : Str → Str` applied to a file content.
  * The json module is embedded concretely for the flat string-to-string
    objects the library reads and writes: `jsonDumps` mirrors
    json.dump(d, f, indent=2) including the ensure_ascii escaping, and
    `jsonLoads` is a parser for such documents that mirrors json.loads on
    them (it rejects non-object documents, which a manifest never is).
-/

set_option maxRecDepth 10000

abbrev Str : Type := List Char

abbrev Smap : Type := List (Str × Str)

/-- Coerce a Lean string literal to the `List Char` representation. -/
def str (s : String) : Str := s.data

/-- settings.MANIFEST_NAME with its default value (no env override). -/
def MANIFEST_NAME : Str := str ".manifestly.json"

/-- settings.MANIFESTLY_IGNORE with its default value (no env override). -/
def MANIFESTLY_IGNORE : Str := str ".manifestlyignore"

/-- ManifestlyIgnore.normalize_path: replace every backslash by a slash. -/
def normalize_path (p : Str) : Str := p.map (fun c => if c = '\\' then '/' else c)

/-- Python str.lstrip with chars "/": drop leading slashes. -/
def lstripSlashes (s : Str) : Str := s.dropWhile (fun c => c = '/')

/-- Python str.rstrip with chars "/": drop trailing slashes. -/
def rstripSlashes (s : Str) : Str := (s.reverse.dropWhile (fun c => c = '/')).reverse

/-- Python str.strip with chars "/": drop slashes at both ends. -/
def stripSlashes (s : Str) : Str := rstripSlashes (lstripSlashes s)

/-- Helper for `splitSlash`: prepend a character to the first group. -/
def consHead (c : Char) : List Str → List Str
  | [] => [[c]]
  | g :: gs => (c :: g) :: gs

/-- Python str.split with separator "/". -/
def splitSlash : Str → List Str
  | [] => [[]]
  | '/' :: rest => [] :: splitSlash rest
  | c :: rest => consHead c (splitSlash rest)

/-- The characters Python str.splitlines breaks lines at. -/
def isLineBreak (c : Char) : Bool :=
  c = '\n' || c = '\r' || c = '\x0b' || c = '\x0c' || c = '\x1c' ||
    c = '\x1d' || c = '\x1e' || c = '\x85' || c = '\u2028' || c = '\u2029'

/-- Worker for `splitlines`; the second argument is the current line reversed. -/
def splitlinesGo : Str → Str → List Str
  | [], cur => if cur.isEmpty then [] else [cur.reverse]
  | '\r' :: '\n' :: rest, cur => cur.reverse :: splitlinesGo rest []
  | c :: rest, cur =>
    if isLineBreak c then cur.reverse :: splitlinesGo rest []
    else splitlinesGo rest (c :: cur)

/-- Python str.splitlines (no trailing empty line, "\r\n" is one break). -/
def splitlines (s : Str) : List Str := splitlinesGo s []

/-- Membership of a character in a glob character class body, with ranges,
following the regex class fnmatch.translate produces (a dash that is first,
last, or follows a completed range is a literal). -/
def classMem : Str → Char → Bool
  | [], _ => false
  | a :: '-' :: b :: rest, c => (a ≤ c && c ≤ b) || classMem rest c
  | a :: rest, c => (a == c) || classMem rest c

/-- Scan a class body up to the closing bracket; none when it never closes. -/
def scanTo : Str → Option (Str × Str)
  | [] => none
  | ']' :: r => some ([], r)
  | c :: r =>
    match scanTo r with
    | none => none
    | some (s, r2) => some (c :: s, r2)

/-- Parse a glob character class after the opening bracket, following
fnmatch.translate: an exclamation mark first negates, a closing bracket
directly after that is part of the class body, and an unterminated class
makes the opening bracket a literal (none). -/
def parseClass (cs : Str) : Option (Bool × Str × Str) :=
  match cs with
  | '!' :: cs2 =>
    match cs2 with
    | ']' :: cs3 =>
      match scanTo cs3 with
      | none => none
      | some (s, r) => some (true, ']' :: s, r)
    | _ =>
      match scanTo cs2 with
      | none => none
      | some (s, r) => some (true, s, r)
  | ']' :: cs2 =>
    match scanTo cs2 with
    | none => none
    | some (s, r) => some (false, ']' :: s, r)
  | _ =>
    match scanTo cs with
    | none => none
    | some (s, r) => some (false, s, r)

/-- Glob matching of a whole name against a pattern, as fnmatch.fnmatch does
on a POSIX platform (normcase is the identity there).  Fuel-based so that it
reduces in the kernel; every step shrinks pattern-length + name-length, so
the fuel passed by `fnmatch` is always sufficient. -/
def globMatch : Nat → Str → Str → Bool
  | 0, _, _ => false
  | _ + 1, [], s => s.isEmpty
  | fuel + 1, '*' :: ps, s =>
    globMatch fuel ps s ||
      (match s with
       | [] => false
       | _ :: s2 => globMatch fuel ('*' :: ps) s2)
  | fuel + 1, '?' :: ps, s =>
    (match s with
     | [] => false
     | _ :: s2 => globMatch fuel ps s2)
  | fuel + 1, '[' :: ps, s =>
    (match parseClass ps with
     | some (neg, stuff, ps2) =>
       (match s with
        | [] => false
        | c :: s2 => (if neg then !classMem stuff c else classMem stuff c) && globMatch fuel ps2 s2)
     | none =>
       (match s with
        | '[' :: s2 => globMatch fuel ps s2
        | _ => false))
  | fuel + 1, p :: ps, s =>
    (match s with
     | c :: s2 => p == c && globMatch fuel ps s2
     | _ => false)

/-- fnmatch.fnmatch(name, pat) on POSIX. -/
def fnmatch (name pat : Str) : Bool := globMatch (pat.length + name.length + 1) pat name

/-- ManifestlyIgnore.should_ignore: normalize the path, and report a match
when any pattern, stripped of surrounding slashes, glob-matches any
slash-separated segment of the normalized path. -/
def should_ignore (patterns : List Str) (file_path : Str) : Bool :=
  let normalized := normalize_path file_path
  patterns.any (fun pat =>
    let p := stripSlashes pat
    (splitSlash normalized).any (fun part => fnmatch part p))

/-- ManifestlyIgnore.load_ignore_patterns: the manifest filename plus, when
the ignore file exists (`some`), its normalized lines. -/
def load_ignore_patterns (content : Option Str) : List Str :=
  match content with
  | none => [MANIFEST_NAME]
  | some s => MANIFEST_NAME :: (splitlines s).map normalize_path

/-- ManifestlyIgnore.add_ignore_pattern for a plain-string name: the
membership test is on the raw name, the appended entry is normalized. -/
def add_ignore_pattern (patterns : List Str) (name : Str) : List Str :=
  if name ∈ patterns then patterns else patterns ++ [normalize_path name]

/-- Python dict assignment d[k] = v: update the value in place when the key
exists, otherwise append the new entry. -/
def dictInsert : Smap → Str → Str → Smap
  | [], k, v => [(k, v)]
  | (k2, v2) :: rest, k, v =>
    if k2 = k then (k2, v) :: rest else (k2, v2) :: dictInsert rest k v

/-- Python dict lookup (first, hence for nodup-keyed maps the only, match). -/
def slookup : Smap → Str → Option Str
  | [], _ => none
  | (k2, v2) :: rest, k => if k2 = k then some v2 else slookup rest k

/-- Does one character list start with another (plain prefix test)? -/
def strStartsWith : Str → Str → Bool
  | _, [] => true
  | [], _ :: _ => false
  | c :: s, p :: ps => c == p && strStartsWith s ps

/-- The filesystem seen through fsspec: absolute file paths with their
contents, plus the set of directories.  Instances list `files` in the sorted
order fsspec find returns. -/
structure FS where
  files : List (Str × Str)
  dirs : List Str
deriving DecidableEq, Repr

/-- fs.find(path): every file strictly below the directory. -/
def FS.find (fs : FS) (path : Str) : List Str :=
  (fs.files.map Prod.fst).filter (fun p => strStartsWith p (path ++ ['/']))

/-- fs.open(path).read() for a file known to the filesystem. -/
def FS.read (fs : FS) (p : Str) : Str :=
  ((fs.files.find? (fun kv => kv.1 == p)).map Prod.snd).getD []

/-- fs.exists(path). -/
def FS.pexists (fs : FS) (p : Str) : Bool :=
  fs.files.any (fun kv => kv.1 == p) || fs.dirs.any (fun d => d == p)

/-- fs.open(path, "wb").write(content): create or overwrite one file. -/
def FS.write (fs : FS) (p content : Str) : FS :=
  { fs with files := dictInsert fs.files p content }

/-- fs.rm(path): delete one file. -/
def FS.rm (fs : FS) (p : Str) : FS :=
  { fs with files := fs.files.filter (fun kv => kv.1 ≠ p) }

/-- fs.makedirs(d, exist_ok=True), recording just the directory itself (the
model only tracks which directories exist, not their nesting). -/
def FS.mkdirs (fs : FS) (d : Str) : FS :=
  if d ∈ fs.dirs then fs else { fs with dirs := fs.dirs ++ [d] }

/-- fsspec AbstractFileSystem._parent: the path up to its last slash. -/
def parentDir (p : Str) : Str :=
  List.intercalate ['/'] (splitSlash (rstripSlashes p)).dropLast

/-- Manifest.default_ignore_file: directory with trailing slashes stripped,
then the ignore filename appended. -/
def default_ignore_file (directory : Str) : Str :=
  rstripSlashes directory ++ '/' :: MANIFESTLY_IGNORE

/-- `file_path.split('/')[-1].split('\\')[-1]` from Manifest.generate. -/
def pathBasename (p : Str) : Str :=
  ((splitSlash p).getLastD [] ).reverse.takeWhile (fun c => c ≠ '\\') |>.reverse

/-- The body of the tree-walk loop in Manifest.generate: skip the file when
the ignore matcher excludes its (absolute) path, otherwise record
hash(content) under the path made relative to the root by dropping
`root.length` characters and any leading slashes. -/
def genStep (hash : Str → Str) (fs : FS) (patterns : List Str) (root : Str)
    (m : Smap) (fp : Str) : Smap :=
  if should_ignore patterns fp then m
  else dictInsert m (lstripSlashes (fp.drop root.length)) (hash (fs.read fp))

/-- Manifest.generate: resolve the root (the scanned directory when no
root_path is given), load the ignore patterns from the per-directory ignore
file when no matcher is passed in, always add the manifest filename, add the
basename of the output manifest file when one is given, then walk every file
below the directory with `genStep`.  (fs.find only yields files here, so the
fs.isfile re-check of the source is always true; the optional write of the
mapping to manifest_file is modelled where the callers need it, in sync.) -/
def Manifest.generate (fs : FS) (hash : Str → Str) (directory : Str)
    (manifest_file : Option Str) (root_path : Option Str)
    (ignore : Option (List Str)) : Smap :=
  let root := root_path.getD directory
  let patterns :=
    match ignore with
    | some ps => ps
    | none =>
      load_ignore_patterns
        (if fs.pexists (default_ignore_file directory) then
          some (fs.read (default_ignore_file directory))
        else none)
  let patterns := add_ignore_pattern patterns MANIFEST_NAME
  let patterns :=
    match manifest_file with
    | none => patterns
    | some mf => add_ignore_pattern patterns (pathBasename mf)
  (fs.find directory).foldl (genStep hash fs patterns root) []

/-- The three-way diff record {'added': .., 'removed': .., 'changed': ..}. -/
structure DiffResult where
  added : Smap
  removed : Smap
  changed : Smap
deriving DecidableEq, Repr

/-- Manifest.diff is a pure function of the two mappings: no I/O, neither
argument is modified.  The first loop walks the source entries, classifying
a key missing from the target as added and a key whose target digest differs
as changed (both with the source digest); the second loop walks the target
entries, classifying a key missing from the source as removed (with the
target digest).  This is the body of the first loop. -/
def diffStep1 (target : Smap) (d : DiffResult) (kv : Str × Str) : DiffResult :=
  if slookup target kv.1 = none then { d with added := d.added ++ [kv] }
  else if slookup target kv.1 ≠ some kv.2 then { d with changed := d.changed ++ [kv] }
  else d

/-- The body of the second loop of Manifest.diff (over the target items). -/
def diffStep2 (source : Smap) (d : DiffResult) (kv : Str × Str) : DiffResult :=
  if slookup source kv.1 = none then { d with removed := d.removed ++ [kv] }
  else d

/-- Manifest.diff, the two loops over the two mappings. -/
def Manifest.diff (source target : Smap) : DiffResult :=
  target.foldl (diffStep2 source)
    (source.foldl (diffStep1 target) { added := [], removed := [], changed := [] })

/-- Lowercase hex digit, as the %04x formatting of the json encoder uses. -/
def hexDigitChar (n : Nat) : Char :=
  if n < 10 then Char.ofNat (48 + n) else Char.ofNat (87 + n)

/-- Four lowercase hex digits of a value below 0x10000. -/
def hex4 (n : Nat) : Str :=
  [hexDigitChar (n / 4096 % 16), hexDigitChar (n / 256 % 16),
   hexDigitChar (n / 16 % 16), hexDigitChar (n % 16)]

/-- How the json encoder with ensure_ascii (the default the library uses)
writes one character inside a string: short escapes for the quote, the
backslash and the common control characters, a uXXXX escape for every other
character outside printable ASCII (a surrogate pair beyond 0xFFFF), and the
character itself otherwise. -/
def escapeChar (c : Char) : Str :=
  if c = '"' then ['\\', '"']
  else if c = '\\' then ['\\', '\\']
  else if c = '\x08' then ['\\', 'b']
  else if c = '\x0c' then ['\\', 'f']
  else if c = '\n' then ['\\', 'n']
  else if c = '\r' then ['\\', 'r']
  else if c = '\t' then ['\\', 't']
  else if c.toNat < 0x20 ∨ 0x7e < c.toNat then
    (if c.toNat < 0x10000 then '\\' :: 'u' :: hex4 c.toNat
     else
       ('\\' :: 'u' :: hex4 (0xd800 + (c.toNat - 0x10000) / 0x400)) ++
         ('\\' :: 'u' :: hex4 (0xdc00 + (c.toNat - 0x10000) % 0x400)))
  else [c]

/-- A JSON string literal: quote, escaped characters, quote. -/
def qstr (s : Str) : Str := '"' :: ((s.map escapeChar).flatten ++ ['"'])

/-- One `"key": "value"` item as json.dump writes it. -/
def entryAux (kv : Str × Str) : Str := qstr kv.1 ++ ':' :: ' ' :: qstr kv.2

/-- json.dump(mapping, f, indent=2) for a flat string-to-string dict:
an opening brace, each entry on its own two-space-indented line with
","-separators, and the closing brace on the last line. -/
def jsonDumps : Smap → Str
  | [] => ['{', '}']
  | e :: es =>
    ('{' :: '\n' :: ' ' :: ' ' :: entryAux e) ++
      ((es.map (fun kv => ',' :: '\n' :: ' ' :: ' ' :: entryAux kv)).flatten ++ ['\n', '}'])

/-- json.dumps(mapping) with the default compact separators. -/
def jsonDumpsCompact : Smap → Str
  | [] => ['{', '}']
  | e :: es =>
    ('{' :: entryAux e) ++
      ((es.map (fun kv => ',' :: ' ' :: entryAux kv)).flatten ++ ['}'])

/-- json.dumps of the diff dict {'added': .., 'removed': .., 'changed': ..}
in its literal key order. -/
def jsonDumpsDiff (d : DiffResult) : Str :=
  ('{' :: qstr (str "added")) ++ ':' :: ' ' :: jsonDumpsCompact d.added ++
    ',' :: ' ' :: qstr (str "removed") ++ ':' :: ' ' :: jsonDumpsCompact d.removed ++
    ',' :: ' ' :: qstr (str "changed") ++ ':' :: ' ' :: jsonDumpsCompact d.changed ++ ['}']

/-- The whitespace json.loads skips between tokens. -/
def isJsonWs (c : Char) : Bool := c = ' ' || c = '\t' || c = '\n' || c = '\r'

/-- Skip JSON whitespace. -/
def skipWs (s : Str) : Str := s.dropWhile isJsonWs

/-- Value of one hex digit. -/
def hexVal (c : Char) : Option Nat :=
  if '0' ≤ c ∧ c ≤ '9' then some (c.toNat - 48)
  else if 'a' ≤ c ∧ c ≤ 'f' then some (c.toNat - 87)
  else if 'A' ≤ c ∧ c ≤ 'F' then some (c.toNat - 55)
  else none

/-- Value of four hex digits. -/
def hex4val (a b c d : Char) : Option Nat :=
  match hexVal a, hexVal b, hexVal c, hexVal d with
  | some va, some vb, some vc, some vd => some (va * 4096 + vb * 256 + vc * 16 + vd)
  | _, _, _, _ => none

/-- Prepend a character to the string being parsed. -/
def consMap (c : Char) : Option (Str × Str) → Option (Str × Str)
  | none => none
  | some (s, r) => some (c :: s, r)

/-- A uXXXX escape tail (the four hex digits and everything after): yields
the decoded character, recombining a high surrogate with a following
backslash-u low surrogate.  A lone surrogate, which a Python str could carry
but a Lean character cannot, is rejected; one never occurs in a document the
library writes. -/
def parseU : Str → Option (Char × Str)
  | a :: b :: c :: d :: rest =>
    (hex4val a b c d).bind (fun n =>
      if 0xd800 ≤ n ∧ n ≤ 0xdbff then
        (match rest with
         | e2 :: u2 :: a2 :: b2 :: c2 :: d2 :: rest2 =>
           if e2 = '\\' ∧ u2 = 'u' then
             (hex4val a2 b2 c2 d2).bind (fun n2 =>
               if 0xdc00 ≤ n2 ∧ n2 ≤ 0xdfff then
                 some (Char.ofNat (0x10000 + (n - 0xd800) * 0x400 + (n2 - 0xdc00)), rest2)
               else none)
           else none
         | _ => none)
      else if 0xdc00 ≤ n ∧ n ≤ 0xdfff then none
      else some (Char.ofNat n, rest))
  | _ => none

/-- One backslash escape of a JSON string: the escape character and the
input following it, yielding the denoted character and the rest. -/
def parseEsc (e : Char) (rest : Str) : Option (Char × Str) :=
  if e = '"' then some ('"', rest)
  else if e = '\\' then some ('\\', rest)
  else if e = '/' then some ('/', rest)
  else if e = 'b' then some ('\x08', rest)
  else if e = 'f' then some ('\x0c', rest)
  else if e = 'n' then some ('\n', rest)
  else if e = 'r' then some ('\r', rest)
  else if e = 't' then some ('\t', rest)
  else if e = 'u' then parseU rest
  else none

/-- The string scanner of json.loads, entered after the opening quote:
plain characters up to the closing quote, backslash escapes via `parseEsc`,
raw control characters rejected (strict mode).  Fuel-based (one unit per
produced character) so that it reduces in the kernel; callers pass the
input length plus one, which always suffices since every step consumes at
least one input character. -/
def parseStringBody : Nat → Str → Option (Str × Str)
  | 0, _ => none
  | _ + 1, [] => none
  | fuel + 1, c :: rest =>
    if c = '"' then some ([], rest)
    else if c = '\\' then
      match rest with
      | [] => none
      | e :: rest2 =>
        (match parseEsc e rest2 with
         | none => none
         | some (ch, rest3) => consMap ch (parseStringBody fuel rest3))
    else if c.toNat < 0x20 then none
    else consMap c (parseStringBody fuel rest)

/-- The members of a JSON object of string values, entered where a key is
expected: `"key"`, a colon, a string value, then either a comma and further
members or the closing brace.  Fuel-based (one unit per member) so that it
reduces in the kernel. -/
def parseMembers : Nat → Str → Option (List (Str × Str) × Str)
  | 0, _ => none
  | fuel + 1, s =>
    match skipWs s with
    | [] => none
    | c :: rest =>
      if c = '"' then
        (match parseStringBody (rest.length + 1) rest with
         | none => none
         | some (k, r1) =>
           match skipWs r1 with
           | [] => none
           | c2 :: r2 =>
             if c2 = ':' then
               (match skipWs r2 with
                | [] => none
                | c3 :: r3 =>
                  if c3 = '"' then
                    (match parseStringBody (r3.length + 1) r3 with
                     | none => none
                     | some (v, r4) =>
                       match skipWs r4 with
                       | [] => none
                       | c4 :: r5 =>
                         if c4 = ',' then
                           (match parseMembers fuel r5 with
                            | none => none
                            | some (es, r6) => some ((k, v) :: es, r6))
                         else if c4 = '}' then some ([(k, v)], r5)
                         else none)
                  else none)
             else none)
      else none

/-- json.loads restricted to the flat string-object documents a manifest
file holds: an object whose values are strings, with nothing but whitespace
around it; the members are collected with dict semantics (a repeated key
overwrites in place).  Any other document — such as the literal text
"bad json" — is rejected (none, the JSONDecodeError of the source). -/
def jsonLoads (s : Str) : Option Smap :=
  match skipWs s with
  | [] => none
  | c :: rest =>
    if c = '{' then
      (match skipWs rest with
       | [] => none
       | c2 :: r2 =>
         if c2 = '}' then (if (skipWs r2).isEmpty then some [] else none)
         else
           match parseMembers s.length rest with
           | none => none
           | some (es, r) =>
             if (skipWs r).isEmpty then
               some (es.foldl (fun m kv => dictInsert m kv.1 kv.2) [])
             else none)
    else none

/-- The in-memory state of a Manifest object: backing path, mapping, root
and the patterns of its ignore matcher. -/
structure MStat where
  mfile : Str
  manifest : Smap
  root : Str
  patterns : List Str
deriving DecidableEq, Repr

/-- Manifest.refresh of a manifest over the filesystem `fs`: regenerate via
Manifest.generate with the stored manifest file, root and ignore matcher.
generate writes the regenerated mapping to the manifest file before
returning, hence the returned filesystem carries that write. -/
def Manifest.refreshOn (fs : FS) (hash : Str → Str) (m : MStat) : FS × MStat :=
  let newManifest :=
    Manifest.generate fs hash m.root (some m.mfile) (some m.root) (some m.patterns)
  (fs.write m.mfile (jsonDumps newManifest), { m with manifest := newManifest })

/-- One added/changed file inside Manifest.sync: the destination parent
directory is created (before any other check), then the copy is skipped when
the source file has vanished, skipped when dry-running, and otherwise the
bytes are copied whole. -/
def syncCopyStep (srcFS : FS) (srcPath tgtPath : Str) (dryRun : Bool)
    (tfs : FS) (file : Str) : FS :=
  let sourceFile := srcPath ++ '/' :: file
  let targetFile := tgtPath ++ '/' :: file
  let tfs := tfs.mkdirs (parentDir targetFile)
  if ¬ srcFS.pexists sourceFile then tfs
  else if dryRun then tfs
  else tfs.write targetFile (srcFS.read sourceFile)

/-- One removed file inside Manifest.sync: deleted when present at the
target and not dry-running; absence is tolerated. -/
def syncRemoveStep (tgtPath : Str) (dryRun : Bool) (tfs : FS) (file : Str) : FS :=
  let targetFile := tgtPath ++ '/' :: file
  if tfs.pexists targetFile then
    (if dryRun then tfs else tfs.rm targetFile)
  else tfs

/-- Manifest.sync source → target over a source and a target filesystem:
diff the manifests, copy every added and then every changed path, delete
every removed path, and (unless dry-running) refresh the target manifest
from the now-current target tree.  Returns the target filesystem and the
target manifest state. -/
def Manifest.sync (srcFS tgtFS : FS) (hash : Str → Str)
    (source target : MStat) (dryRun : Bool) : FS × MStat :=
  let d := Manifest.diff source.manifest target.manifest
  let tgtFS :=
    ((d.added.map Prod.fst) ++ (d.changed.map Prod.fst)).foldl
      (syncCopyStep srcFS source.root target.root dryRun) tgtFS
  let tgtFS :=
    (d.removed.map Prod.fst).foldl (syncRemoveStep target.root dryRun) tgtFS
  if dryRun then (tgtFS, target)
  else Manifest.refreshOn tgtFS hash target

/-- Manifest.pzip: diff the two manifests, archive the full content of every
added and changed path under its relative path, and separately write the
compact JSON of the diff to a file named .manifestly.diff (a plain
fsspec.open write in the working directory, not an archive member). -/
def Manifest.pzip (srcFS : FS) (source target : Smap) (sourceRoot : Str) :
    List (Str × Str) × (Str × Str) :=
  let d := Manifest.diff source target
  (((d.added.map Prod.fst) ++ (d.changed.map Prod.fst)).map
      (fun file => (file, srcFS.read (sourceRoot ++ '/' :: file))),
   (str ".manifestly.diff", jsonDumpsDiff d))

/-- The state of a manifest backing location: a missing file, a directory
(whose inner state is that of the default manifest file resolved inside it),
or a file with raw text content. -/
inductive BFile where
  | missing : BFile
  | directory : BFile → BFile
  | content : Str → BFile
deriving DecidableEq, Repr

/-- Does the backing file exist (through the directory resolution)? -/
def BFile.existsb : BFile → Bool
  | .missing => false
  | .directory inner => inner.existsb
  | .content _ => true

/-- Manifest.save: serialize the mapping with json.dump(.., indent=2),
creating the parent directory as needed, overwriting the backing file. -/
def Manifest.save (m : Smap) : BFile := BFile.content (jsonDumps m)

/-- Manifest.load: empty content yields the empty manifest; content that
json.loads rejects yields the empty manifest (JSONDecodeError caught); a
missing file yields the empty manifest and immediately saves it
(FileNotFoundError caught); a directory re-resolves to the default manifest
filename inside it and retries (IsADirectoryError caught).  Returns the
loaded mapping and the backing state afterwards. -/
def Manifest.loadFile : BFile → Smap × BFile
  | .missing => ([], Manifest.save [])
  | .directory inner =>
    let r := Manifest.loadFile inner
    (r.1, BFile.directory r.2)
  | .content s =>
    if s.isEmpty then ([], BFile.content s)
    else
      match jsonLoads s with
      | some m => (m, BFile.content s)
      | none => ([], BFile.content s)

/-- A concrete stand-in for the hash collaborator, used by the concrete
scenarios (the ignore and diff logic never inspects digests). -/
def demoHash : Str → Str := fun s => 'h' :: s

/-- The concrete scenario tree of the specification: a directory /d holding
a.txt ("hi"), .manifestlyignore ("*.tmp") and cache.tmp ("x"). -/
def scenarioFS : FS :=
  { files := [(str "/d/.manifestlyignore", str "*.tmp"),
              (str "/d/a.txt", str "hi"),
              (str "/d/cache.tmp", str "x")],
    dirs := [str "/d"] }

/-- A tree whose scanned directory sits below an ancestor directory named
build: /data/build containing the single file a.txt. -/
def buildFS : FS :=
  { files := [(str "/data/build/a.txt", str "hi")], dirs := [str "/data/build"] }

/-- Source tree for the sync scenarios: /s containing sub/a.txt. -/
def syncSrcFS : FS :=
  { files := [(str "/s/sub/a.txt", str "hi")], dirs := [str "/s", str "/s/sub"] }

/-- Target tree for the sync scenarios: an empty directory /t. -/
def syncTgtFS : FS := { files := [], dirs := [str "/t"] }

/-- Source manifest state for the sync scenarios. -/
def syncSrcStat : MStat :=
  { mfile := str "/m/src.json", manifest := [(str "sub/a.txt", str "h1")],
    root := str "/s", patterns := [MANIFEST_NAME] }

/-- Target manifest state for the sync scenarios: empty manifest over /t. -/
def syncTgtStat : MStat :=
  { mfile := str "/m/tgt.json", manifest := [],
    root := str "/t", patterns := [MANIFEST_NAME] }

/-- A concrete two-entry manifest used as a round-trip witness. -/
def witnessMap : Smap := [(str "a.txt", str "abc123"), (str "p/q r", str "ff00")]

/-- Source manifest for the diff witnesses. -/
def diffWsrc : Smap := [(str "a", str "1"), (str "b", str "2"), (str "c", str "3")]

/-- Target manifest for the diff witnesses. -/
def diffWtgt : Smap := [(str "a", str "1"), (str "b", str "9"), (str "d", str "4")]

/-! ## Theorems -/

theorem slookup_ne_none_of_mem_keys {m : Smap} {k : Str} (h : k ∈ m.map Prod.fst) :
    slookup m k ≠ none := by
  induction m with
  | nil => simp at h
  | cons kv rest ih =>
    simp only [List.map_cons, List.mem_cons] at h
    by_cases he : kv.1 = k
    · simp [slookup, he]
    · rcases h with h | h
      · exact absurd h.symm he
      · simp [slookup, he, ih h]

theorem slookup_eq_of_mem_nodup {m : Smap} {kv : Str × Str}
    (hnd : (m.map Prod.fst).Nodup) (h : kv ∈ m) : slookup m kv.1 = some kv.2 := by
  induction m with
  | nil => simp at h
  | cons kv2 rest ih =>
    simp only [List.map_cons, List.nodup_cons] at hnd
    rcases List.mem_cons.mp h with h | h
    · subst h; simp [slookup]
    · have hk : kv2.1 ≠ kv.1 := by
        intro he
        exact hnd.1 (he ▸ List.mem_map_of_mem Prod.fst h)
      simp [slookup, hk, ih hnd.2 h]

theorem diffStep1_foldl_added (t : Smap) (l : Smap) (acc : DiffResult) :
    (l.foldl (diffStep1 t) acc).added
      = acc.added ++ l.filter (fun kv => decide (slookup t kv.1 = none)) := by
  induction l generalizing acc with
  | nil => simp
  | cons kv rest ih =>
    by_cases h1 : slookup t kv.1 = none
    · simp [diffStep1, h1, ih, List.append_assoc]
    · by_cases h2 : slookup t kv.1 = some kv.2
      · simp [diffStep1, h1, h2, ih]
      · simp [diffStep1, h1, h2, ih]

theorem diffStep1_foldl_changed (t : Smap) (l : Smap) (acc : DiffResult) :
    (l.foldl (diffStep1 t) acc).changed
      = acc.changed ++
          l.filter (fun kv => decide (slookup t kv.1 ≠ none ∧ slookup t kv.1 ≠ some kv.2)) := by
  induction l generalizing acc with
  | nil => simp
  | cons kv rest ih =>
    by_cases h1 : slookup t kv.1 = none
    · simp [diffStep1, h1, ih]
    · by_cases h2 : slookup t kv.1 = some kv.2
      · simp [diffStep1, h1, h2, ih]
      · simp [diffStep1, h1, h2, ih, List.append_assoc]

theorem diffStep1_foldl_removed (t : Smap) (l : Smap) (acc : DiffResult) :
    (l.foldl (diffStep1 t) acc).removed = acc.removed := by
  induction l generalizing acc with
  | nil => simp
  | cons kv rest ih =>
    by_cases h1 : slookup t kv.1 = none
    · simp [diffStep1, h1, ih]
    · by_cases h2 : slookup t kv.1 = some kv.2
      · simp [diffStep1, h1, h2, ih]
      · simp [diffStep1, h1, h2, ih]

theorem diffStep2_foldl_removed (s : Smap) (l : Smap) (acc : DiffResult) :
    (l.foldl (diffStep2 s) acc).removed
      = acc.removed ++ l.filter (fun kv => decide (slookup s kv.1 = none)) := by
  induction l generalizing acc with
  | nil => simp
  | cons kv rest ih =>
    by_cases h1 : slookup s kv.1 = none
    · simp [diffStep2, h1, ih, List.append_assoc]
    · simp [diffStep2, h1, ih]

theorem diffStep2_foldl_added (s : Smap) (l : Smap) (acc : DiffResult) :
    (l.foldl (diffStep2 s) acc).added = acc.added := by
  induction l generalizing acc with
  | nil => simp
  | cons kv rest ih =>
    by_cases h1 : slookup s kv.1 = none
    · simp [diffStep2, h1, ih]
    · simp [diffStep2, h1, ih]

theorem diffStep2_foldl_changed (s : Smap) (l : Smap) (acc : DiffResult) :
    (l.foldl (diffStep2 s) acc).changed = acc.changed := by
  induction l generalizing acc with
  | nil => simp
  | cons kv rest ih =>
    by_cases h1 : slookup s kv.1 = none
    · simp [diffStep2, h1, ih]
    · simp [diffStep2, h1, ih]

theorem diff_added_eq (s t : Smap) :
    (Manifest.diff s t).added = s.filter (fun kv => decide (slookup t kv.1 = none)) := by
  unfold Manifest.diff
  rw [diffStep2_foldl_added, diffStep1_foldl_added]
  simp

theorem diff_changed_eq (s t : Smap) :
    (Manifest.diff s t).changed
      = s.filter (fun kv => decide (slookup t kv.1 ≠ none ∧ slookup t kv.1 ≠ some kv.2)) := by
  unfold Manifest.diff
  rw [diffStep2_foldl_changed, diffStep1_foldl_changed]
  simp

theorem diff_removed_eq (s t : Smap) :
    (Manifest.diff s t).removed = t.filter (fun kv => decide (slookup s kv.1 = none)) := by
  unfold Manifest.diff
  rw [diffStep2_foldl_removed, diffStep1_foldl_removed]
  simp

/-- C5: Manifest.diff returns exactly: added = the source entries whose key
is absent from the target (so each added key carries the source digest);
changed = the source entries whose key the target maps to a different
digest (again carrying the source digest); removed = the target entries
whose key is absent from the source (carrying the target digest).  Being a
plain function of the two mappings, it performs no I/O and modifies
neither argument. -/
theorem c5_diff_exact (s t : Smap) :
    (Manifest.diff s t).added = s.filter (fun kv => decide (slookup t kv.1 = none)) ∧
    (Manifest.diff s t).changed
      = s.filter (fun kv => decide (slookup t kv.1 ≠ none ∧ slookup t kv.1 ≠ some kv.2)) ∧
    (Manifest.diff s t).removed = t.filter (fun kv => decide (slookup s kv.1 = none)) :=
  ⟨diff_added_eq s t, diff_changed_eq s t, diff_removed_eq s t⟩

/-- C10: the added, changed and removed key sets of a diff are pairwise
disjoint; every added and changed entry occurs in the source mapping with
the source digest as its value, and every removed entry occurs in the
target mapping with the target digest as its value. -/
theorem c10_diff_invariants (s t : Smap)
    (hs : (s.map Prod.fst).Nodup) (ht : (t.map Prod.fst).Nodup) :
    (∀ k, ¬(k ∈ (Manifest.diff s t).added.map Prod.fst ∧
        k ∈ (Manifest.diff s t).changed.map Prod.fst)) ∧
    (∀ k, ¬(k ∈ (Manifest.diff s t).added.map Prod.fst ∧
        k ∈ (Manifest.diff s t).removed.map Prod.fst)) ∧
    (∀ k, ¬(k ∈ (Manifest.diff s t).changed.map Prod.fst ∧
        k ∈ (Manifest.diff s t).removed.map Prod.fst)) ∧
    (∀ kv ∈ (Manifest.diff s t).added, slookup s kv.1 = some kv.2) ∧
    (∀ kv ∈ (Manifest.diff s t).changed, slookup s kv.1 = some kv.2) ∧
    (∀ kv ∈ (Manifest.diff s t).removed, slookup t kv.1 = some kv.2) := by
  refine ⟨?_, ?_, ?_, ?_, ?_, ?_⟩
  · rintro k ⟨ha, hc⟩
    rw [diff_added_eq] at ha
    rw [diff_changed_eq] at hc
    rcases List.mem_map.mp ha with ⟨kv, hkv, hk⟩
    rcases List.mem_map.mp hc with ⟨kv2, hkv2, hk2⟩
    have h1 := (List.mem_filter.mp hkv).2
    have h2 := (List.mem_filter.mp hkv2).2
    simp only [decide_eq_true_eq] at h1 h2
    exact h2.1 (hk2 ▸ hk ▸ h1)
  · rintro k ⟨ha, hr⟩
    rw [diff_added_eq] at ha
    rw [diff_removed_eq] at hr
    rcases List.mem_map.mp ha with ⟨kv, hkv, hk⟩
    rcases List.mem_map.mp hr with ⟨kv2, hkv2, hk2⟩
    have h1 := (List.mem_filter.mp hkv).2
    have h2 := List.mem_map_of_mem Prod.fst (List.mem_filter.mp hkv2).1
    simp only [decide_eq_true_eq] at h1
    exact slookup_ne_none_of_mem_keys (hk2 ▸ h2) (hk ▸ h1)
  · rintro k ⟨hc, hr⟩
    rw [diff_changed_eq] at hc
    rw [diff_removed_eq] at hr
    rcases List.mem_map.mp hc with ⟨kv, hkv, hk⟩
    rcases List.mem_map.mp hr with ⟨kv2, hkv2, hk2⟩
    have h1 := List.mem_map_of_mem Prod.fst (List.mem_filter.mp hkv).1
    have h2 := (List.mem_filter.mp hkv2).2
    simp only [decide_eq_true_eq] at h2
    exact slookup_ne_none_of_mem_keys (hk ▸ h1) (hk2 ▸ h2)
  · intro kv hkv
    rw [diff_added_eq] at hkv
    exact slookup_eq_of_mem_nodup hs (List.mem_filter.mp hkv).1
  · intro kv hkv
    rw [diff_changed_eq] at hkv
    exact slookup_eq_of_mem_nodup hs (List.mem_filter.mp hkv).1
  · intro kv hkv
    rw [diff_removed_eq] at hkv
    exact slookup_eq_of_mem_nodup ht (List.mem_filter.mp hkv).1

/-- Witness for C10 at a concrete pair of manifests. -/
theorem c10_diff_invariants_witness :
    ((diffWsrc.map Prod.fst).Nodup ∧ (diffWtgt.map Prod.fst).Nodup) ∧
    ((∀ k, ¬(k ∈ (Manifest.diff diffWsrc diffWtgt).added.map Prod.fst ∧
        k ∈ (Manifest.diff diffWsrc diffWtgt).changed.map Prod.fst)) ∧
     (∀ k, ¬(k ∈ (Manifest.diff diffWsrc diffWtgt).added.map Prod.fst ∧
        k ∈ (Manifest.diff diffWsrc diffWtgt).removed.map Prod.fst)) ∧
     (∀ k, ¬(k ∈ (Manifest.diff diffWsrc diffWtgt).changed.map Prod.fst ∧
        k ∈ (Manifest.diff diffWsrc diffWtgt).removed.map Prod.fst)) ∧
     (∀ kv ∈ (Manifest.diff diffWsrc diffWtgt).added, slookup diffWsrc kv.1 = some kv.2) ∧
     (∀ kv ∈ (Manifest.diff diffWsrc diffWtgt).changed, slookup diffWsrc kv.1 = some kv.2) ∧
     (∀ kv ∈ (Manifest.diff diffWsrc diffWtgt).removed, slookup diffWtgt kv.1 = some kv.2)) :=
  ⟨⟨by decide, by decide⟩, c10_diff_invariants diffWsrc diffWtgt (by decide) (by decide)⟩

/-- C9: ignore matching is segment-exact glob matching, not substring
matching: the single pattern build excludes build/output.txt,
src/build/x.txt and the path build itself, but not buildings/x.txt. -/
theorem c9_segment_exact_glob :
    should_ignore [str "build"] (str "build/output.txt") = true ∧
    should_ignore [str "build"] (str "src/build/x.txt") = true ∧
    should_ignore [str "build"] (str "build") = true ∧
    should_ignore [str "build"] (str "buildings/x.txt") = false :=
  ⟨by decide, by decide, by decide, by decide⟩

/-- C7 counterexample: add_ignore_pattern is not idempotent as claimed.  For
a name containing a backslash the membership test (on the raw name) misses
the previously appended normalized entry, so a second call appends a
duplicate. -/
theorem c7_add_twice_duplicates :
    add_ignore_pattern (add_ignore_pattern [] (str "dir\\sub")) (str "dir\\sub")
      = [str "dir/sub", str "dir/sub"] ∧
    add_ignore_pattern [] (str "dir\\sub") = [str "dir/sub"] :=
  ⟨by decide, by decide⟩

/-- C7 amended: add_ignore_pattern is idempotent for every pattern name that
path normalization leaves unchanged (no backslash); a name containing a
backslash may be appended twice. -/
theorem c7_add_ignore_pattern_idem (ps : List Str) (name : Str)
    (h : normalize_path name = name) :
    add_ignore_pattern (add_ignore_pattern ps name) name = add_ignore_pattern ps name := by
  unfold add_ignore_pattern
  by_cases hm : name ∈ ps
  · simp [hm]
  · simp [hm, h]

/-- Witness for the amended C7 at a concrete pattern name. -/
theorem c7_add_ignore_pattern_idem_witness :
    normalize_path (str "logs") = str "logs" ∧
    add_ignore_pattern (add_ignore_pattern [(str "build")] (str "logs")) (str "logs")
      = add_ignore_pattern [(str "build")] (str "logs") :=
  ⟨by decide, c7_add_ignore_pattern_idem [(str "build")] (str "logs") (by decide)⟩

theorem self_mem_add_ignore_pattern (ps : List Str) (name : Str)
    (h : normalize_path name = name) : name ∈ add_ignore_pattern ps name := by
  unfold add_ignore_pattern
  by_cases hm : name ∈ ps
  · simp [hm]
  · simp [hm, h]

theorem mem_keys_dictInsert (m : Smap) (k0 v0 : Str) (k : Str) :
    k ∈ (dictInsert m k0 v0).map Prod.fst ↔ k ∈ m.map Prod.fst ∨ k = k0 := by
  induction m with
  | nil => simp [dictInsert, eq_comm]
  | cons kv rest ih =>
    by_cases he : kv.1 = k0
    · rcases kv with ⟨k2, v2⟩
      simp only at he
      simp only [dictInsert, if_pos he, List.map_cons, List.mem_cons]
      constructor
      · rintro (h | h)
        · exact Or.inl (Or.inl h)
        · exact Or.inl (Or.inr h)
      · rintro ((h | h) | h)
        · exact Or.inl h
        · exact Or.inr h
        · exact Or.inl (he ▸ h)
    · rcases kv with ⟨k2, v2⟩
      simp only at he
      simp only [dictInsert, if_neg he, List.map_cons, List.mem_cons, ih]
      tauto

theorem mem_keys_foldl_genStep (hash : Str → Str) (fs : FS) (patterns : List Str)
    (root : Str) (l : List Str) (acc : Smap) (k : Str) :
    k ∈ (l.foldl (genStep hash fs patterns root) acc).map Prod.fst ↔
      k ∈ acc.map Prod.fst ∨
        ∃ fp ∈ l, should_ignore patterns fp = false ∧
          k = lstripSlashes (fp.drop root.length) := by
  induction l generalizing acc with
  | nil => simp
  | cons fp rest ih =>
    simp only [List.foldl_cons, ih]
    by_cases hig : should_ignore patterns fp
    · simp only [genStep, if_pos hig]
      constructor
      · rintro (h | h)
        · exact Or.inl h
        · exact Or.inr (by rcases h with ⟨fp2, h1, h2⟩; exact ⟨fp2, List.mem_cons_of_mem _ h1, h2⟩)
      · rintro (h | ⟨fp2, h1, h2, h3⟩)
        · exact Or.inl h
        · rcases List.mem_cons.mp h1 with h1 | h1
          · rw [h1] at h2; rw [h2] at hig; simp at hig
          · exact Or.inr ⟨fp2, h1, h2, h3⟩
    · simp only [genStep, if_neg hig, mem_keys_dictInsert]
      constructor
      · rintro ((h | h) | h)
        · exact Or.inl h
        · exact Or.inr ⟨fp, List.mem_cons_self _ _,
            by simpa using hig, h⟩
        · exact Or.inr (by rcases h with ⟨fp2, h1, h2⟩; exact ⟨fp2, List.mem_cons_of_mem _ h1, h2⟩)
      · rintro (h | ⟨fp2, h1, h2, h3⟩)
        · exact Or.inl (Or.inl h)
        · rcases List.mem_cons.mp h1 with h1 | h1
          · exact Or.inl (Or.inr (h1 ▸ h3))
          · exact Or.inr ⟨fp2, h1, h2, h3⟩

theorem strStartsWith_iff (s p : Str) :
    strStartsWith s p = true ↔ ∃ t, s = p ++ t := by
  induction p generalizing s with
  | nil => simp [strStartsWith]
  | cons c p ih =>
    cases s with
    | nil => simp [strStartsWith]
    | cons c2 s =>
      simp only [strStartsWith, Bool.and_eq_true, beq_iff_eq, ih, List.cons_append,
        List.cons.injEq]
      tauto

theorem splitSlash_cons_ne (c : Char) (rest : Str) (h : c ≠ '/') :
    splitSlash (c :: rest) = consHead c (splitSlash rest) := by
  rw [splitSlash.eq_def]
  split
  · rename_i heq
    exact absurd heq (by simp)
  · rename_i heq
    injection heq with h1 h2
    exact absurd h1 h
  · rename_i heq
    injection heq with h1 h2
    rw [h1, h2]

theorem splitSlash_ne_nil (s : Str) : splitSlash s ≠ [] := by
  induction s with
  | nil => simp [splitSlash]
  | cons c rest ih =>
    by_cases hc : c = '/'
    · subst hc; simp [splitSlash]
    · rw [splitSlash_cons_ne c rest hc]
      cases hsp : splitSlash rest with
      | nil => exact absurd hsp ih
      | cons g gs => simp [consHead]

theorem splitSlash_append_slash (xs ys : Str) :
    splitSlash (xs ++ '/' :: ys) = splitSlash xs ++ splitSlash ys := by
  induction xs with
  | nil => simp [splitSlash]
  | cons c xs ih =>
    by_cases hc : c = '/'
    · subst hc
      simp only [List.cons_append, splitSlash, List.append_eq, ih]
    · rw [List.cons_append, splitSlash_cons_ne c _ hc, splitSlash_cons_ne c xs hc, ih]
      cases hsp : splitSlash xs with
      | nil => exact absurd hsp (splitSlash_ne_nil xs)
      | cons g gs => simp [consHead]

theorem normalize_path_all_slash (w : Str) (h : ∀ c ∈ w, c = '/') :
    normalize_path w = w := by
  unfold normalize_path
  have h2 : ∀ c ∈ w, (if c = '\\' then '/' else c) = c := by
    intro c hc
    rw [h c hc]
    simp
  rw [List.map_congr_left h2]
  simp

theorem lstripSlashes_decomp (s : Str) :
    ∃ w, (∀ c ∈ w, c = '/') ∧ s = w ++ lstripSlashes s := by
  refine ⟨s.takeWhile (fun c => decide (c = '/')), ?_, ?_⟩
  · intro x hx
    exact of_decide_eq_true
      (@List.mem_takeWhile_imp Char (fun c => decide (c = '/')) s x hx)
  · exact (List.takeWhile_append_dropWhile (fun c => decide (c = '/')) s).symm

theorem splitSlash_slashes_append (w ys : Str) (h : ∀ c ∈ w, c = '/') :
    splitSlash (w ++ ys) = List.replicate w.length [] ++ splitSlash ys := by
  induction w with
  | nil => simp
  | cons c w ih =>
    have hc : c = '/' := h c (List.mem_cons_self _ _)
    subst hc
    simp only [List.cons_append, splitSlash, List.length_cons, List.replicate_succ,
      List.append_eq]
    rw [ih (fun c hc => h c (List.mem_cons_of_mem _ hc))]

theorem generate_none_eq (fs : FS) (hash : Str → Str) (dir : Str) :
    Manifest.generate fs hash dir none none none
      = (fs.find dir).foldl
          (genStep hash fs
            (add_ignore_pattern
              (load_ignore_patterns
                (if fs.pexists (default_ignore_file dir) then
                  some (fs.read (default_ignore_file dir)) else none))
              MANIFEST_NAME)
            dir) [] := rfl

theorem generate_some_eq (fs : FS) (hash : Str → Str) (dir root : Str) (ps : List Str) :
    Manifest.generate fs hash dir none (some root) (some ps)
      = (fs.find dir).foldl (genStep hash fs (add_ignore_pattern ps MANIFEST_NAME) root) [] :=
  rfl

theorem should_ignore_eq_false_iff (patterns : List Str) (fp : Str) :
    should_ignore patterns fp = false ↔
      ∀ pat ∈ patterns, ∀ part ∈ splitSlash (normalize_path fp),
        fnmatch part (stripSlashes pat) = false := by
  simp [should_ignore, List.any_eq_false]

/-- C1 counterexample: in the concrete scenario (a.txt containing "hi",
.manifestlyignore containing "*.tmp", cache.tmp containing "x") the
generated manifest does contain the ignore filename as a key — the ignore
file is not self-excluded — so the manifest has two entries, not one. -/
theorem c1_ignore_file_is_a_key :
    (Manifest.generate scenarioFS demoHash (str "/d") none none none).map Prod.fst
      = [str ".manifestlyignore", str "a.txt"] ∧
    str ".manifestlyignore"
      ∈ (Manifest.generate scenarioFS demoHash (str "/d") none none none).map Prod.fst :=
  ⟨by decide, by decide⟩

/-- C1 amended: the configured manifest filename never occurs as a key of a
generated manifest (for the default root, the scanned directory itself),
because the manifest filename is always among the ignore patterns and is
always a segment of the matched path; the ignore filename however is NOT
self-excluded, and in the concrete scenario the manifest holds exactly the
two entries .manifestlyignore → sha256("*.tmp") and a.txt → sha256("hi"),
for any hash function. -/
theorem c1_manifest_name_self_excluded :
    (∀ (fs : FS) (hash : Str → Str) (dir : Str) (kv : Str × Str),
        kv ∈ Manifest.generate fs hash dir none none none → kv.1 ≠ MANIFEST_NAME) ∧
    (∀ hash : Str → Str,
        Manifest.generate scenarioFS hash (str "/d") none none none
          = [(str ".manifestlyignore", hash (str "*.tmp")), (str "a.txt", hash (str "hi"))]) := by
  constructor
  · intro fs hash dir kv hkv heq
    have hk : kv.1 ∈ (Manifest.generate fs hash dir none none none).map Prod.fst :=
      List.mem_map_of_mem Prod.fst hkv
    rw [generate_none_eq, mem_keys_foldl_genStep] at hk
    simp only [List.map_nil, List.not_mem_nil, false_or] at hk
    obtain ⟨fp, hfind, hig, hrel⟩ := hk
    have hpre : strStartsWith fp (dir ++ ['/']) = true := by
      have := List.mem_filter.mp hfind
      exact this.2
    obtain ⟨t, hfp⟩ := (strStartsWith_iff fp (dir ++ ['/'])).mp hpre
    rw [List.append_assoc, List.singleton_append] at hfp
    have hdrop : fp.drop dir.length = '/' :: t := by
      rw [hfp]
      exact List.drop_left dir ('/' :: t)
    have hstrip : lstripSlashes ('/' :: t) = MANIFEST_NAME := by
      rw [← hdrop, ← hrel, heq]
    obtain ⟨w, hws, hw⟩ := lstripSlashes_decomp ('/' :: t)
    rw [hstrip] at hw
    cases w with
    | nil =>
      rw [List.nil_append] at hw
      have : ('/' : Char) = '.' := by
        have h16 : MANIFEST_NAME = '.' :: str "manifestly.json" := by decide
        rw [h16] at hw
        injection hw
      simp at this
    | cons c w2 =>
      have hc : c = '/' := hws c (List.mem_cons_self _ _)
      subst hc
      rw [List.cons_append] at hw
      injection hw with hdup ht
      have hw2 : ∀ x ∈ w2, x = '/' := fun x hx => hws x (List.mem_cons_of_mem _ hx)
      have hfp2 : fp = dir ++ '/' :: (w2 ++ MANIFEST_NAME) := by rw [hfp, ht]
      have hig2 := (should_ignore_eq_false_iff _ fp).mp hig
      have hMN : MANIFEST_NAME
          ∈ add_ignore_pattern
              (load_ignore_patterns
                (if fs.pexists (default_ignore_file dir) then
                  some (fs.read (default_ignore_file dir)) else none))
              MANIFEST_NAME :=
        self_mem_add_ignore_pattern _ _ (by decide)
      have hseg : MANIFEST_NAME ∈ splitSlash (normalize_path fp) := by
        rw [hfp2]
        unfold normalize_path
        rw [List.map_append, List.map_cons]
        have hslash : (if ('/' : Char) = '\\' then '/' else '/') = '/' := by decide
        rw [hslash, List.map_append]
        rw [show (w2.map (fun c => if c = '\\' then '/' else c)) = w2 from
          normalize_path_all_slash w2 hw2]
        rw [show (MANIFEST_NAME.map (fun c => if c = '\\' then '/' else c)) = MANIFEST_NAME
          from by decide]
        rw [splitSlash_append_slash, splitSlash_slashes_append w2 MANIFEST_NAME hw2]
        rw [show splitSlash MANIFEST_NAME = [MANIFEST_NAME] from by decide]
        simp
      have := hig2 MANIFEST_NAME hMN MANIFEST_NAME hseg
      rw [show fnmatch MANIFEST_NAME (stripSlashes MANIFEST_NAME) = true from by decide] at this
      exact absurd this (by decide)
  · intro hash
    rfl

/-- Witness for the amended C1: the key a.txt of the concrete scenario is
recorded and indeed differs from the manifest filename. -/
theorem c1_manifest_name_self_excluded_witness :
    (str "a.txt", demoHash (str "hi"))
        ∈ Manifest.generate scenarioFS demoHash (str "/d") none none none ∧
    (str "a.txt", demoHash (str "hi")).1 ≠ MANIFEST_NAME :=
  ⟨by decide,
    c1_manifest_name_self_excluded.1 scenarioFS demoHash (str "/d") _ (by decide)⟩

/-- C4 counterexample: generate decides exclusion on the absolute
filesystem path, not the path relative to the root.  Scanning the directory
/data/build with the single-line ignore pattern build skips its file a.txt
(the manifest is empty) even though the ignore matcher does not exclude the
relative path a.txt — the ancestor segment build above the root caused the
exclusion. -/
theorem c4_absolute_path_decides :
    Manifest.generate buildFS demoHash (str "/data/build") none none (some [str "build"]) = [] ∧
    should_ignore (add_ignore_pattern [str "build"] MANIFEST_NAME) (str "a.txt") = false :=
  ⟨by decide, by decide⟩

/-- C4 amended: during generate a file is skipped iff the ignore matcher
excludes its ABSOLUTE path as returned by the tree walk (so segments of
ancestor directories above rootPath do affect exclusion); the key recorded
for a surviving file is the path made relative to rootPath by dropping
rootPath-many leading characters and any leading slashes. -/
theorem c4_generate_keys (fs : FS) (hash : Str → Str) (dir root : Str)
    (ps : List Str) (k : Str) :
    k ∈ (Manifest.generate fs hash dir none (some root) (some ps)).map Prod.fst ↔
      ∃ fp ∈ fs.find dir,
        should_ignore (add_ignore_pattern ps MANIFEST_NAME) fp = false ∧
          k = lstripSlashes (fp.drop root.length) := by
  rw [generate_some_eq, mem_keys_foldl_genStep]
  simp

/-- Witness for the amended C4 at a concrete tree and root. -/
theorem c4_generate_keys_witness :
    str "a.txt" ∈ (Manifest.generate syncSrcFS demoHash (str "/s/sub") none
      (some (str "/s/sub")) (some [])).map Prod.fst :=
  (c4_generate_keys syncSrcFS demoHash (str "/s/sub") (str "/s/sub") [] (str "a.txt")).mpr
    ⟨str "/s/sub/a.txt", by decide, by decide, by decide⟩

theorem mkdirs_files (fs : FS) (d : Str) : (fs.mkdirs d).files = fs.files := by
  unfold FS.mkdirs
  split <;> rfl

theorem syncCopyStep_dry_files (srcFS : FS) (sp tp : Str) (tfs : FS) (f : Str) :
    (syncCopyStep srcFS sp tp true tfs f).files = tfs.files := by
  simp only [syncCopyStep]
  split
  · exact mkdirs_files _ _
  · simp [mkdirs_files]

theorem syncRemoveStep_dry (tp : Str) (tfs : FS) (f : Str) :
    syncRemoveStep tp true tfs f = tfs := by
  simp only [syncRemoveStep]
  split <;> simp

theorem foldl_syncCopyStep_dry_files (srcFS : FS) (sp tp : Str) (l : List Str) (acc : FS) :
    (l.foldl (syncCopyStep srcFS sp tp true) acc).files = acc.files := by
  induction l generalizing acc with
  | nil => rfl
  | cons f rest ih => rw [List.foldl_cons, ih, syncCopyStep_dry_files]

theorem foldl_syncRemoveStep_dry (tp : Str) (l : List Str) (acc : FS) :
    l.foldl (syncRemoveStep tp true) acc = acc := by
  induction l generalizing acc with
  | nil => rfl
  | cons f rest ih => rw [List.foldl_cons, syncRemoveStep_dry, ih]

/-- C2 counterexample: a dry-run sync is not free of filesystem mutation.
Syncing a source manifest holding sub/a.txt into an empty target tree with
dryRun set creates the directory /t/sub (the parent-directory creation
happens before the dry-run check), so the target tree differs afterwards. -/
theorem c2_dry_run_creates_directory :
    (Manifest.sync syncSrcFS syncTgtFS demoHash syncSrcStat syncTgtStat true).1 ≠ syncTgtFS ∧
    (Manifest.sync syncSrcFS syncTgtFS demoHash syncSrcStat syncTgtStat true).1.dirs
      = [str "/t", str "/t/sub"] ∧
    syncTgtFS.dirs = [str "/t"] :=
  ⟨by decide, by decide, by decide⟩

/-- C2 amended: a dry-run sync copies no file, deletes no file and does not
regenerate the target manifest — the target tree FILES and the target
manifest state are unchanged — but it does create missing destination
parent directories for added/changed paths. -/
theorem c2_dry_run_files_untouched (srcFS tgtFS : FS) (hash : Str → Str)
    (source target : MStat) :
    (Manifest.sync srcFS tgtFS hash source target true).1.files = tgtFS.files ∧
    (Manifest.sync srcFS tgtFS hash source target true).2 = target := by
  refine ⟨?_, rfl⟩
  unfold Manifest.sync
  simp only [if_true, foldl_syncRemoveStep_dry, foldl_syncCopyStep_dry_files]

/-- C3 counterexample: the zip archive does NOT contain an additional member
holding the serialized diff.  For a source manifest with one added file the
archive has exactly that one member, no member named .manifestly.diff; the
diff document is instead written to a separate file of that name outside the
archive. -/
theorem c3_no_diff_member_in_archive :
    ((Manifest.pzip syncSrcFS [(str "sub/a.txt", str "h1")] [] (str "/s")).1).map Prod.fst
      = [str "sub/a.txt"] ∧
    str ".manifestly.diff"
      ∉ ((Manifest.pzip syncSrcFS [(str "sub/a.txt", str "h1")] [] (str "/s")).1).map Prod.fst ∧
    (Manifest.pzip syncSrcFS [(str "sub/a.txt", str "h1")] [] (str "/s")).2.1
      = str ".manifestly.diff" :=
  ⟨by decide, by decide, by decide⟩

/-- C3 amended: pzip writes an archive whose members are exactly the
added/changed paths of the diff, each storing the full content of the
source file at that relative path; the serialized diff document is written
to a separate file named .manifestly.diff outside the archive (so deletions
are recorded next to, not inside, the zip). -/
theorem c3_pzip_exact (srcFS : FS) (s t : Smap) (root : Str) :
    ((Manifest.pzip srcFS s t root).1.map Prod.fst
      = (Manifest.diff s t).added.map Prod.fst ++ (Manifest.diff s t).changed.map Prod.fst) ∧
    (∀ m ∈ (Manifest.pzip srcFS s t root).1, m.2 = srcFS.read (root ++ '/' :: m.1)) ∧
    (Manifest.pzip srcFS s t root).2 = (str ".manifestly.diff", jsonDumpsDiff (Manifest.diff s t)) := by
  refine ⟨?_, ?_, rfl⟩
  · simp only [Manifest.pzip, List.map_append, List.map_map]
    have h2 : (Prod.fst ∘ (fun file => (file, srcFS.read (root ++ '/' :: file))) ∘ Prod.fst)
        = (Prod.fst : Str × Str → Str) := by
      funext kv
      rfl
    rw [h2]
  · intro m hm
    simp only [Manifest.pzip, List.mem_map] at hm
    obtain ⟨f, hf, he⟩ := hm
    rw [← he]

/-- Witness for the amended C3 at a concrete source manifest. -/
theorem c3_pzip_exact_witness :
    ((Manifest.pzip syncSrcFS [(str "sub/a.txt", str "h1")] [] (str "/s")).1.map Prod.fst
      = (Manifest.diff [(str "sub/a.txt", str "h1")] []).added.map Prod.fst
        ++ (Manifest.diff [(str "sub/a.txt", str "h1")] []).changed.map Prod.fst) ∧
    (∀ m ∈ (Manifest.pzip syncSrcFS [(str "sub/a.txt", str "h1")] [] (str "/s")).1,
      m.2 = syncSrcFS.read (str "/s" ++ '/' :: m.1)) ∧
    (Manifest.pzip syncSrcFS [(str "sub/a.txt", str "h1")] [] (str "/s")).2
      = (str ".manifestly.diff",
          jsonDumpsDiff (Manifest.diff [(str "sub/a.txt", str "h1")] [])) :=
  c3_pzip_exact syncSrcFS [(str "sub/a.txt", str "h1")] [] (str "/s")

theorem hexVal_hexDigitChar (n : Nat) (h : n < 16) : hexVal (hexDigitChar n) = some n := by
  interval_cases n <;> decide

theorem hex4val_hexDigits (n : Nat) (h : n < 65536) :
    hex4val (hexDigitChar (n / 4096 % 16)) (hexDigitChar (n / 256 % 16))
      (hexDigitChar (n / 16 % 16)) (hexDigitChar (n % 16)) = some n := by
  unfold hex4val
  rw [hexVal_hexDigitChar _ (Nat.mod_lt _ (by norm_num)),
      hexVal_hexDigitChar _ (Nat.mod_lt _ (by norm_num)),
      hexVal_hexDigitChar _ (Nat.mod_lt _ (by norm_num)),
      hexVal_hexDigitChar _ (Nat.mod_lt _ (by norm_num))]
  simp only [Option.some.injEq]
  omega

theorem char_toNat_valid (c : Char) :
    c.toNat < 0xd800 ∨ (0xe000 ≤ c.toNat ∧ c.toNat < 0x110000) := c.valid

theorem parseU_single (a b c d : Char) (rest : Str) (n : Nat)
    (hv : hex4val a b c d = some n) (hns : ¬(0xd800 ≤ n ∧ n ≤ 0xdfff)) :
    parseU (a :: b :: c :: d :: rest) = some (Char.ofNat n, rest) := by
  rw [parseU, hv, Option.some_bind]
  rw [if_neg (fun hh => hns ⟨hh.1, le_trans hh.2 (by norm_num)⟩),
    if_neg (fun hh => hns ⟨le_trans (by norm_num) hh.1, hh.2⟩)]

theorem parseU_pair (a b c d a2 b2 c2 d2 : Char) (X : Str) (n n2 : Nat)
    (hv : hex4val a b c d = some n) (hhi : 0xd800 ≤ n ∧ n ≤ 0xdbff)
    (hv2 : hex4val a2 b2 c2 d2 = some n2) (hlo : 0xdc00 ≤ n2 ∧ n2 ≤ 0xdfff) :
    parseU (a :: b :: c :: d :: ('\\' :: 'u' :: a2 :: b2 :: c2 :: d2 :: X))
      = some (Char.ofNat (0x10000 + (n - 0xd800) * 0x400 + (n2 - 0xdc00)), X) := by
  rw [parseU, hv, Option.some_bind]
  rw [if_pos hhi]
  show (if ('\\' : Char) = '\\' ∧ ('u' : Char) = 'u' then
      (hex4val a2 b2 c2 d2).bind (fun n2 =>
        if 0xdc00 ≤ n2 ∧ n2 ≤ 0xdfff then
          some (Char.ofNat (0x10000 + (n - 0xd800) * 0x400 + (n2 - 0xdc00)), X)
        else none)
    else none) = _
  rw [if_pos (⟨rfl, rfl⟩ : ('\\' : Char) = '\\' ∧ ('u' : Char) = 'u')]
  rw [hv2, Option.some_bind]
  rw [if_pos hlo]

theorem parseStringBody_plain (fuel : Nat) (c : Char) (rest : Str)
    (h1 : c ≠ '"') (h2 : c ≠ '\\') (h3 : ¬ c.toNat < 0x20) :
    parseStringBody (fuel + 1) (c :: rest) = consMap c (parseStringBody fuel rest) := by
  show (if c = '"' then some ([], rest)
    else if c = '\\' then
      (match rest with
       | [] => none
       | e :: rest2 =>
         (match parseEsc e rest2 with
          | none => none
          | some (ch, rest3) => consMap ch (parseStringBody fuel rest3)))
    else if c.toNat < 0x20 then none
    else consMap c (parseStringBody fuel rest)) = _
  rw [if_neg h1, if_neg h2, if_neg h3]

theorem parseStringBody_backslash (fuel : Nat) (e : Char) (rest2 : Str) :
    parseStringBody (fuel + 1) ('\\' :: e :: rest2)
      = (match parseEsc e rest2 with
         | none => none
         | some (ch, rest3) => consMap ch (parseStringBody fuel rest3)) := by
  rw [parseStringBody, if_neg (by decide : ¬('\\' : Char) = '"'), if_pos rfl]

/-- One escaped character round-trips through the string scanner. -/
theorem parseStringBody_step (fuel : Nat) (c : Char) (X : Str) :
    parseStringBody (fuel + 1) (escapeChar c ++ X) = consMap c (parseStringBody fuel X) := by
  by_cases h1 : c = '"'
  · subst h1
    show parseStringBody (fuel + 1) ('\\' :: '"' :: X) = _
    rw [parseStringBody_backslash]
    rw [show parseEsc '"' X = some ('"', X) from by simp [parseEsc]]
  by_cases h2 : c = '\\'
  · subst h2
    show parseStringBody (fuel + 1) ('\\' :: '\\' :: X) = _
    rw [parseStringBody_backslash]
    rw [show parseEsc '\\' X = some ('\\', X) from by simp [parseEsc]]
  by_cases h3 : c = '\x08'
  · subst h3
    show parseStringBody (fuel + 1) ('\\' :: 'b' :: X) = _
    rw [parseStringBody_backslash]
    rw [show parseEsc 'b' X = some ('\x08', X) from by simp [parseEsc]]
  by_cases h4 : c = '\x0c'
  · subst h4
    show parseStringBody (fuel + 1) ('\\' :: 'f' :: X) = _
    rw [parseStringBody_backslash]
    rw [show parseEsc 'f' X = some ('\x0c', X) from by simp [parseEsc]]
  by_cases h5 : c = '\n'
  · subst h5
    show parseStringBody (fuel + 1) ('\\' :: 'n' :: X) = _
    rw [parseStringBody_backslash]
    rw [show parseEsc 'n' X = some ('\n', X) from by simp [parseEsc]]
  by_cases h6 : c = '\r'
  · subst h6
    show parseStringBody (fuel + 1) ('\\' :: 'r' :: X) = _
    rw [parseStringBody_backslash]
    rw [show parseEsc 'r' X = some ('\r', X) from by simp [parseEsc]]
  by_cases h7 : c = '\t'
  · subst h7
    show parseStringBody (fuel + 1) ('\\' :: 't' :: X) = _
    rw [parseStringBody_backslash]
    rw [show parseEsc 't' X = some ('\t', X) from by simp [parseEsc]]
  by_cases h8 : c.toNat < 0x20 ∨ 0x7e < c.toNat
  · by_cases h9 : c.toNat < 0x10000
    · -- a basic-plane uXXXX escape
      have hesc : escapeChar c = '\\' :: 'u' :: hex4 c.toNat := by
        unfold escapeChar
        rw [if_neg h1, if_neg h2, if_neg h3, if_neg h4, if_neg h5, if_neg h6, if_neg h7,
          if_pos h8, if_pos h9]
      rw [hesc]
      show parseStringBody (fuel + 1) ('\\' :: 'u' :: (hex4 c.toNat ++ X)) = _
      rw [parseStringBody_backslash]
      have hpe : parseEsc 'u' (hex4 c.toNat ++ X) = parseU (hex4 c.toNat ++ X) := rfl
      rw [hpe]
      have hns : ¬(0xd800 ≤ c.toNat ∧ c.toNat ≤ 0xdfff) := by
        rcases char_toNat_valid c with h | h <;> omega
      have hu : parseU (hex4 c.toNat ++ X) = some (Char.ofNat c.toNat, X) := by
        show parseU (hexDigitChar (c.toNat / 4096 % 16) :: hexDigitChar (c.toNat / 256 % 16)
          :: hexDigitChar (c.toNat / 16 % 16) :: hexDigitChar (c.toNat % 16) :: X) = _
        exact parseU_single _ _ _ _ X c.toNat (hex4val_hexDigits c.toNat h9) hns
      rw [hu, Char.ofNat_toNat]
    · -- an astral-plane surrogate pair
      have hbig : 0x10000 ≤ c.toNat := by omega
      have hlt : c.toNat < 0x110000 := by
        rcases char_toNat_valid c with h | h <;> omega
      have hesc : escapeChar c
          = ('\\' :: 'u' :: hex4 (0xd800 + (c.toNat - 0x10000) / 0x400)) ++
              ('\\' :: 'u' :: hex4 (0xdc00 + (c.toNat - 0x10000) % 0x400)) := by
        unfold escapeChar
        rw [if_neg h1, if_neg h2, if_neg h3, if_neg h4, if_neg h5, if_neg h6, if_neg h7,
          if_pos h8, if_neg h9]
      rw [hesc]
      show parseStringBody (fuel + 1)
        ('\\' :: 'u' :: (hex4 (0xd800 + (c.toNat - 0x10000) / 0x400) ++
          ('\\' :: 'u' :: (hex4 (0xdc00 + (c.toNat - 0x10000) % 0x400) ++ X)))) = _
      rw [parseStringBody_backslash]
      have hpe : parseEsc 'u' (hex4 (0xd800 + (c.toNat - 0x10000) / 0x400) ++
          ('\\' :: 'u' :: (hex4 (0xdc00 + (c.toNat - 0x10000) % 0x400) ++ X)))
          = parseU (hex4 (0xd800 + (c.toNat - 0x10000) / 0x400) ++
              ('\\' :: 'u' :: (hex4 (0xdc00 + (c.toNat - 0x10000) % 0x400) ++ X))) := rfl
      rw [hpe]
      have hu : parseU (hex4 (0xd800 + (c.toNat - 0x10000) / 0x400) ++
          ('\\' :: 'u' :: (hex4 (0xdc00 + (c.toNat - 0x10000) % 0x400) ++ X)))
          = some (Char.ofNat c.toNat, X) := by
        show parseU (hexDigitChar ((0xd800 + (c.toNat - 0x10000) / 0x400) / 4096 % 16)
          :: hexDigitChar ((0xd800 + (c.toNat - 0x10000) / 0x400) / 256 % 16)
          :: hexDigitChar ((0xd800 + (c.toNat - 0x10000) / 0x400) / 16 % 16)
          :: hexDigitChar ((0xd800 + (c.toNat - 0x10000) / 0x400) % 16)
          :: ('\\' :: 'u' :: hexDigitChar ((0xdc00 + (c.toNat - 0x10000) % 0x400) / 4096 % 16)
          :: hexDigitChar ((0xdc00 + (c.toNat - 0x10000) % 0x400) / 256 % 16)
          :: hexDigitChar ((0xdc00 + (c.toNat - 0x10000) % 0x400) / 16 % 16)
          :: hexDigitChar ((0xdc00 + (c.toNat - 0x10000) % 0x400) % 16) :: X)) = _
        rw [parseU_pair _ _ _ _ _ _ _ _ X
          (0xd800 + (c.toNat - 0x10000) / 0x400) (0xdc00 + (c.toNat - 0x10000) % 0x400)
          (hex4val_hexDigits _ (by omega)) (by omega)
          (hex4val_hexDigits _ (by omega)) (by omega)]
        have harith : 0x10000 + (0xd800 + (c.toNat - 0x10000) / 0x400 - 0xd800) * 0x400 +
            (0xdc00 + (c.toNat - 0x10000) % 0x400 - 0xdc00) = c.toNat := by omega
        rw [harith]
      rw [hu, Char.ofNat_toNat]
  · -- a plain printable character, written as itself
    have hesc : escapeChar c = [c] := by
      unfold escapeChar
      rw [if_neg h1, if_neg h2, if_neg h3, if_neg h4, if_neg h5, if_neg h6, if_neg h7,
        if_neg h8]
    rw [hesc, List.singleton_append,
      parseStringBody_plain fuel c X h1 h2 (by omega : ¬ c.toNat < 0x20)]

/-- An escaped string followed by its closing quote round-trips through the
string scanner, for any sufficient fuel. -/
theorem parseStringBody_round (s : Str) : ∀ (fuel : Nat) (rest : Str), s.length < fuel →
    parseStringBody fuel ((s.map escapeChar).flatten ++ '"' :: rest) = some (s, rest) := by
  induction s with
  | nil =>
    intro fuel rest hf
    cases fuel with
    | zero => omega
    | succ f => rfl
  | cons c s ih =>
    intro fuel rest hf
    cases fuel with
    | zero => omega
    | succ f =>
      rw [List.map_cons, List.flatten_cons, List.append_assoc, parseStringBody_step]
      rw [ih f rest (by simpa using Nat.lt_of_succ_lt_succ hf)]
      rfl

theorem skipWs_cons_of_not (c : Char) (s : Str) (h : isJsonWs c = false) :
    skipWs (c :: s) = c :: s := by
  simp [skipWs, List.dropWhile_cons, h]

theorem skipWs_cons_of_ws (c : Char) (s : Str) (h : isJsonWs c = true) :
    skipWs (c :: s) = skipWs s := by
  simp [skipWs, List.dropWhile_cons, h]

theorem parseMembers_congr (fuel : Nat) (a b : Str) (h : skipWs a = skipWs b) :
    parseMembers fuel a = parseMembers fuel b := by
  cases fuel with
  | zero => rfl
  | succ f => rw [parseMembers, parseMembers, h]

theorem escapeChar_length_pos (c : Char) : 1 ≤ (escapeChar c).length := by
  unfold escapeChar
  repeat' split
  all_goals simp [hex4]

theorem length_le_flatten_escape (s : Str) :
    s.length ≤ ((s.map escapeChar).flatten).length := by
  induction s with
  | nil => simp
  | cons c s ih =>
    rw [List.map_cons, List.flatten_cons, List.length_append, List.length_cons]
    have := escapeChar_length_pos c
    omega

theorem entry_length_pos (kv : Str × Str) : 1 ≤ (entryAux kv).length := by
  simp [entryAux, qstr]

theorem length_le_flatten_chunk (es : Smap) :
    es.length
      ≤ ((es.map (fun kv => ',' :: '\n' :: ' ' :: ' ' :: entryAux kv)).flatten).length := by
  induction es with
  | nil => simp
  | cons e es ih =>
    rw [List.map_cons, List.flatten_cons, List.length_append, List.length_cons]
    simp only [List.length_cons]
    omega

/-- Parsing one rendered `"key": "value"` item: the scanner consumes it
whole and proceeds at the following separator. -/
theorem parseMembers_entry (f : Nat) (k v : Str) (W : Str) :
    parseMembers (f + 1) (entryAux (k, v) ++ W)
      = (match skipWs W with
         | [] => none
         | c4 :: r5 =>
           if c4 = ',' then
             (match parseMembers f r5 with
              | none => none
              | some (es, r6) => some ((k, v) :: es, r6))
           else if c4 = '}' then some ([(k, v)], r5)
           else none) := by
  have hin : entryAux (k, v) ++ W
      = '"' :: ((k.map escapeChar).flatten ++ '"' ::
          (':' :: ' ' :: ('"' :: ((v.map escapeChar).flatten ++ '"' :: W)))) := by
    simp [entryAux, qstr, List.append_assoc]
  rw [hin, parseMembers]
  rw [skipWs_cons_of_not _ _ (by decide)]
  dsimp only []
  rw [if_pos rfl]
  rw [parseStringBody_round k _ _ (by
    have := length_le_flatten_escape k
    simp only [List.length_append, List.length_cons]
    omega)]
  dsimp only []
  rw [skipWs_cons_of_not _ _ (by decide)]
  dsimp only []
  rw [if_pos rfl]
  rw [skipWs_cons_of_ws _ _ (by decide), skipWs_cons_of_not _ _ (by decide)]
  dsimp only []
  rw [if_pos rfl]
  rw [parseStringBody_round v _ _ (by
    have := length_le_flatten_escape v
    simp only [List.length_append, List.length_cons]
    omega)]

/-- Parsing the rendered members of a nonempty object, up to and including
the closing brace. -/
theorem parseMembers_round (es : Smap) : ∀ (k v : Str) (fuel : Nat) (ext : Str),
    es.length < fuel →
    parseMembers fuel
      (entryAux (k, v) ++
        ((es.map (fun kv => ',' :: '\n' :: ' ' :: ' ' :: entryAux kv)).flatten
          ++ '\n' :: '}' :: ext))
      = some ((k, v) :: es, ext) := by
  induction es with
  | nil =>
    intro k v fuel ext hf
    cases fuel with
    | zero => omega
    | succ f =>
      rw [List.map_nil]
      simp only [List.flatten_nil, List.nil_append]
      rw [parseMembers_entry]
      rw [skipWs_cons_of_ws _ _ (by decide), skipWs_cons_of_not _ _ (by decide)]
      dsimp only []
      rw [if_neg (by decide : ¬('}' : Char) = ','), if_pos rfl]
  | cons e2 es ih =>
    obtain ⟨k2, v2⟩ := e2
    intro k v fuel ext hf
    cases fuel with
    | zero => omega
    | succ f =>
      rw [List.map_cons, List.flatten_cons]
      rw [parseMembers_entry]
      simp only [List.cons_append, List.append_assoc]
      rw [skipWs_cons_of_not _ _ (by decide)]
      dsimp only []
      rw [if_pos rfl]
      have hz : parseMembers f
          ('\n' :: ' ' :: ' ' :: (entryAux (k2, v2) ++
            ((es.map (fun kv => ',' :: '\n' :: ' ' :: ' ' :: entryAux kv)).flatten
              ++ '\n' :: '}' :: ext)))
          = parseMembers f (entryAux (k2, v2) ++
            ((es.map (fun kv => ',' :: '\n' :: ' ' :: ' ' :: entryAux kv)).flatten
              ++ '\n' :: '}' :: ext)) := by
        apply parseMembers_congr
        rw [skipWs_cons_of_ws _ _ (by decide), skipWs_cons_of_ws _ _ (by decide),
          skipWs_cons_of_ws _ _ (by decide)]
      rw [hz]
      rw [ih k2 v2 f ext (by
        simp only [List.length_cons] at hf
        omega)]

theorem dictInsert_of_not_mem (acc : Smap) (k v : Str)
    (h : ∀ kv ∈ acc, kv.1 ≠ k) : dictInsert acc k v = acc ++ [(k, v)] := by
  induction acc with
  | nil => rfl
  | cons kv2 rest ih =>
    rw [dictInsert, if_neg (h kv2 (List.mem_cons_self _ _)), List.cons_append,
      ih (fun kv hkv => h kv (List.mem_cons_of_mem _ hkv))]

theorem foldl_dictInsert_eq (l : Smap) : ∀ (acc : Smap),
    (l.map Prod.fst).Nodup → (∀ kv ∈ l, ∀ kv2 ∈ acc, kv2.1 ≠ kv.1) →
    l.foldl (fun m kv => dictInsert m kv.1 kv.2) acc = acc ++ l := by
  induction l with
  | nil => intro acc _ _; simp
  | cons kv l ih =>
    intro acc hnd hfresh
    simp only [List.map_cons, List.nodup_cons] at hnd
    rw [List.foldl_cons]
    rw [dictInsert_of_not_mem acc kv.1 kv.2
      (fun kv2 hkv2 => hfresh kv (List.mem_cons_self _ _) kv2 hkv2)]
    rw [ih (acc ++ [(kv.1, kv.2)]) hnd.2 ?_]
    · simp
    · intro kv3 hkv3 kv2 hkv2
      rcases List.mem_append.mp hkv2 with h | h
      · exact hfresh kv3 (List.mem_cons_of_mem _ hkv3) kv2 h
      · rcases List.mem_singleton.mp h with rfl
        intro he
        exact hnd.1 (he ▸ List.mem_map_of_mem Prod.fst hkv3)

/-- The serializer and the parser are mutually inverse on every mapping
with distinct keys: json.loads(json.dumps(m, indent=2)) recovers m. -/
theorem jsonLoads_jsonDumps (m : Smap) (h : (m.map Prod.fst).Nodup) :
    jsonLoads (jsonDumps m) = some m := by
  cases m with
  | nil => decide
  | cons e es =>
    obtain ⟨k, v⟩ := e
    rw [jsonDumps]
    unfold jsonLoads
    simp only [List.cons_append, List.append_assoc]
    rw [skipWs_cons_of_not _ _ (by decide)]
    dsimp only []
    rw [if_pos rfl]
    rw [skipWs_cons_of_ws _ _ (by decide), skipWs_cons_of_ws _ _ (by decide),
      skipWs_cons_of_ws _ _ (by decide)]
    have hin : entryAux (k, v) ++
        ((es.map (fun kv => ',' :: '\n' :: ' ' :: ' ' :: entryAux kv)).flatten
          ++ ['\n', '}'])
        = '"' :: ((k.map escapeChar).flatten ++ '"' ::
            (':' :: ' ' :: ('"' :: ((v.map escapeChar).flatten ++ '"' ::
              ((es.map (fun kv => ',' :: '\n' :: ' ' :: ' ' :: entryAux kv)).flatten
                ++ ['\n', '}']))))) := by
      simp [entryAux, qstr, List.append_assoc]
    rw [hin, skipWs_cons_of_not _ _ (by decide)]
    dsimp only []
    rw [if_neg (by decide : ¬('"' : Char) = '}')]
    rw [parseMembers_congr _
      ('\n' :: ' ' :: ' ' ::
        ('"' :: ((k.map escapeChar).flatten ++ '"' ::
          (':' :: ' ' :: ('"' :: ((v.map escapeChar).flatten ++ '"' ::
            ((es.map (fun kv => ',' :: '\n' :: ' ' :: ' ' :: entryAux kv)).flatten
              ++ ['\n', '}'])))))))
      (entryAux (k, v) ++
        ((es.map (fun kv => ',' :: '\n' :: ' ' :: ' ' :: entryAux kv)).flatten
          ++ '\n' :: '}' :: ([] : Str)))
      (by
        rw [skipWs_cons_of_ws _ _ (by decide), skipWs_cons_of_ws _ _ (by decide),
          skipWs_cons_of_ws _ _ (by decide), hin])]
    rw [parseMembers_round es k v _ [] (by
      have h1 := length_le_flatten_chunk es
      have h2 := entry_length_pos (k, v)
      simp only [List.length_cons, List.length_append]
      omega)]
    dsimp only []
    rw [show skipWs ([] : Str) = [] from rfl]
    rw [show (([] : Str)).isEmpty = true from rfl, if_pos rfl]
    rw [foldl_dictInsert_eq ((k, v) :: es) [] h (by simp)]
    rw [List.nil_append]

/-- C8: round-trip.  Saving any in-memory manifest (a finite mapping, so
with distinct keys) and loading from the same backing location yields
exactly the same mapping, with the backing state untouched by the load. -/
theorem c8_save_load_round_trip (m : Smap) (h : (m.map Prod.fst).Nodup) :
    Manifest.loadFile (Manifest.save m) = (m, Manifest.save m) := by
  show Manifest.loadFile (BFile.content (jsonDumps m)) = (m, BFile.content (jsonDumps m))
  rw [Manifest.loadFile]
  rw [if_neg (by
    cases m with
    | nil => decide
    | cons e es => simp [jsonDumps])]
  rw [jsonLoads_jsonDumps m h]

/-- Witness for C8 at a concrete two-entry manifest. -/
theorem c8_save_load_round_trip_witness :
    (witnessMap.map Prod.fst).Nodup ∧
    Manifest.loadFile (Manifest.save witnessMap) = (witnessMap, Manifest.save witnessMap) :=
  ⟨by decide, c8_save_load_round_trip witnessMap (by decide)⟩

/-- C6: manifest loading is total.  For every backing state the backing file
exists after the load; empty content and the malformed content "bad json"
each yield the empty manifest without an error; a missing backing file
yields the empty manifest and immediately persists it (the backing file then
holds the serialization of the empty mapping). -/
theorem c6_load_total :
    (∀ b : BFile, ((Manifest.loadFile b).2).existsb = true) ∧
    Manifest.loadFile (BFile.content []) = ([], BFile.content []) ∧
    Manifest.loadFile (BFile.content (str "bad json")) = ([], BFile.content (str "bad json")) ∧
    Manifest.loadFile BFile.missing = ([], BFile.content (str "\x7b\x7d")) := by
  refine ⟨?_, by decide, by decide, by decide⟩
  intro b
  induction b with
  | missing => rfl
  | directory inner ih => simp [Manifest.loadFile, BFile.existsb, ih]
  | content s =>
    unfold Manifest.loadFile
    by_cases hs : s.isEmpty
    · simp [hs, BFile.existsb]
    · cases hj : jsonLoads s <;> simp [hs, hj, BFile.existsb]
